import Mathlib

/-!
Shallow embedding of the NBCM compliance computation engine
(app/services/compliance_service.py together with the models
app/models/cmdb.py, app/models/jobs.py, app/models/compliance.py).

Python strings are modelled as lists of characters; `str.lower`, `str.strip`,
`str.split` and friends are embedded over their basic-latin behaviour, which
is the range the hostname data of this application lives in.  `datetime`
values are modelled as integer timestamps in seconds, `timedelta(hours=h)`
as `h * 3600` seconds and `timedelta(days=1)` as `86400` seconds.  `float`
sizes and rates are modelled as exact rationals.
-/

namespace NBCM

/-- Python strings, as lists of characters. -/
abbrev Str := List Char

/-- Shorthand turning a Lean string literal into its character list. -/
def strL (s : String) : Str := s.toList

/-! ## Python string primitives -/

/-- The characters stripped by Python `str.strip()`. -/
def pyIsSpace (c : Char) : Bool :=
  c == ' ' || c == '\t' || c == '\n' || c == '\r' || c == '\x0b' || c == '\x0c'

/-- `str.lower()`, basic-latin range (the range `Char.toLower` handles). -/
def pyLower (s : Str) : Str := s.map Char.toLower

/-- `str.upper()`, basic-latin range. -/
def pyUpper (s : Str) : Str := s.map Char.toUpper

/-- `str.strip()`: drop whitespace from both ends. -/
def pyStrip (s : Str) : Str :=
  ((s.dropWhile pyIsSpace).reverse.dropWhile pyIsSpace).reverse

/-- `s.split(sep)[0]` guarded by `if sep in s`, as written in
`normalize_hostname`: when `sep` occurs, keep the part before its first
occurrence, otherwise leave the string unchanged. -/
def cutAt (sep : Char) (s : Str) : Str :=
  if s.contains sep then s.takeWhile (fun c => c != sep) else s

/-- One step of the suffix-stripping loop of `normalize_hostname`:
`if normalized.endswith(suffix): normalized = normalized[:-len(suffix)]`. -/
def dropSufIfEnds (s suf : Str) : Str :=
  if suf.isSuffixOf s then s.take (s.length - suf.length) else s

/-- One step of the head-stripping loop of `normalize_hostname`:
`if normalized.startswith(p): normalized = normalized[len(p):]`. -/
def dropPreIfStarts (s p : Str) : Str :=
  if p.isPrefixOf s then s.drop p.length else s

/-- The backup suffixes stripped by `normalize_hostname`, in source order. -/
def suffixesNorm : List Str :=
  [strL "_bkp", strL "_backup", strL "_prod", strL "_test",
   strL "_dev", strL "_dr", strL "_snap", strL "_clone"]

/-- The backup head-markers stripped by `normalize_hostname`, in source order. -/
def prefixesNorm : List Str :=
  [strL "bkp_", strL "backup_"]

/-- `normalize_hostname` from compliance_service.py: lower-case and strip,
cut at the first dot (domain removal) then at the first `@` (email removal),
then run the suffix loop and the head-marker loop. -/
def normalize_hostname (hostname : Str) : Str :=
  if hostname = [] then []
  else
    let n0 := pyStrip (pyLower hostname)
    let n1 := cutAt '.' n0
    let n2 := cutAt '@' n1
    let n3 := suffixesNorm.foldl dropSufIfEnds n2
    prefixesNorm.foldl dropPreIfStarts n3

/-! ## Data model (app/models) -/

/-- A `ReferentielCMDB` row (registry entry).  Timestamps are integer
seconds; the nullable deactivation bounds are `Option Int`. -/
structure Server where
  hostname : Str
  backup_enabled : Bool
  date_debut_desactivation : Option Int := none
  date_fin_desactivation : Option Int := none
deriving DecidableEq, Inhabited, Repr

/-- `ReferentielCMDB.est_desactive_temporairement`: both bounds must be
present (a missing bound means not suspended), and the test is
`self.date_debut_desactivation <= now <= self.date_fin_desactivation`. -/
def est_desactive_temporairement (s : Server) (now : Int) : Bool :=
  match s.date_debut_desactivation, s.date_fin_desactivation with
  | some d, some f => decide (d ≤ now ∧ now ≤ f)
  | _, _ => false

/-- A `JobAltaview` row.  `status` is a nullable string column,
`taille_gb` a nullable float column (modelled as an exact rational). -/
structure Job where
  hostname : Str
  backup_time : Int
  status : Option Str := none
  taille_gb : Option ℚ := none
deriving DecidableEq, Inhabited, Repr

/-- Python `str.isdigit()` over the basic-latin range: non-empty and all
characters in `0123456789`. -/
def isdigitStr (s : Str) : Bool := !s.isEmpty && s.all Char.isDigit

/-- `int(s)` for a string of decimal digits. -/
def digitsToNat (s : Str) : Nat := s.foldl (fun n c => 10 * n + (c.toNat - 48)) 0

/-- `JobAltaview.is_warning`: empty or missing status is not a warning;
a numerically parseable status is a warning iff it equals 1; otherwise the
status is a warning iff it upper-cases to `WARNING`.  (The numeric branch is
modelled for unsigned digit strings, the form the ingested data uses.) -/
def is_warning (status : Option Str) : Bool :=
  match status with
  | none => false
  | some s =>
    if s = [] then false
    else if isdigitStr s then digitsToNat s == 1
    else pyUpper s == strL "WARNING"

/-- `JobAltaview.is_success`: empty or missing status counts as success;
a numerically parseable status succeeds iff it equals 0; otherwise the
status succeeds iff it upper-cases to `SUCCESS`, `OK` or the empty string. -/
def is_success (status : Option Str) : Bool :=
  match status with
  | none => true
  | some s =>
    if s = [] then true
    else if isdigitStr s then digitsToNat s == 0
    else [strL "SUCCESS", strL "OK", strL ""].contains (pyUpper s)

/-! ## Validity classifier (calculer_conformite, inner loop) -/

/-- Python truthiness of an optional string. -/
def truthyStr (s : Option Str) : Bool :=
  match s with
  | none => false
  | some l => !l.isEmpty

/-- The status test of the job-validity check in `calculer_conformite`:
`status_num = int(job.status) if job.status and job.status.isdigit() else -1`
then
`status_ok = status_num in [0, 1] or (job.status and job.status.upper() in
['SUCCESS', ''])`.  With a string-typed status column the `int` call never
raises, so the `except` fallback is unreachable. -/
def statusOk (status : Option Str) : Bool :=
  let statusNum : Int :=
    match status with
    | some s => if !s.isEmpty && isdigitStr s then (digitsToNat s : Int) else -1
    | none => -1
  (statusNum == 0 || statusNum == 1) ||
    (truthyStr status &&
      (match status with
       | some s => [strL "SUCCESS", strL ""].contains (pyUpper s)
       | none => false))

/-- The size test: `taille_ok = job.taille_gb and job.taille_gb > 0`
(`None` and `0.0` are falsy). -/
def tailleOk (taille : Option ℚ) : Bool :=
  match taille with
  | none => false
  | some t => if t = 0 then false else decide (0 < t)

/-- `status_ok and taille_ok`: the job counts toward compliance. -/
def jobValide (j : Job) : Bool := statusOk j.status && tailleOk j.taille_gb

/-! ## Grouping and dictionaries

Python dicts keep insertion order of keys; both the `defaultdict(list)` of
`calculer_conformite` and the dict comprehensions of the archive path are
modelled as association lists in key-insertion order. -/

/-- `jobs_valides_par_host[k].append(j)` on a `defaultdict(list)`:
append to the group when the key exists, otherwise add a new singleton
group at the end. -/
def addToGroup (m : List (Str × List Job)) (k : Str) (j : Job) :
    List (Str × List Job) :=
  match m with
  | [] => [(k, [j])]
  | (k', l) :: rest =>
    if k' = k then (k', l ++ [j]) :: rest else (k', l) :: addToGroup rest k j

/-- Group jobs satisfying `p` by normalized hostname, in encounter order.
`calculer_conformite` uses `p = jobValide`; instantiating `p` with the
constantly-true test yields the grouping the archive path effectively uses. -/
def groupJobs (p : Job → Bool) (jobs : List Job) : List (Str × List Job) :=
  jobs.foldl
    (fun m j => if p j then addToGroup m (normalize_hostname j.hostname) j else m)
    []

/-- `jobs_valides_par_host` of `calculer_conformite`. -/
def jobsValidesParHost (jobs : List Job) : List (Str × List Job) :=
  groupJobs jobValide jobs

/-- `d[k] = v` on an ordered dict: overwrite in place or append. -/
def dictInsert (m : List (Str × Str)) (k v : Str) : List (Str × Str) :=
  match m with
  | [] => [(k, v)]
  | (k', v') :: rest =>
    if k' = k then (k, v) :: rest else (k', v') :: dictInsert rest k v

/-- `hostnames_sauvegardes_norm` of the archive path: dict comprehension
mapping each job's normalized hostname to its original hostname (the last
job with a given normalized key wins). -/
def hostsSauvegardesNorm (jobs : List Job) : List (Str × Str) :=
  jobs.foldl (fun m j => dictInsert m (normalize_hostname j.hostname) j.hostname) []

/-! ## Scope, selections and classification -/

/-- The in-scope servers of both paths: `backup_enabled=True` rows that are
not temporarily deactivated at `now`. -/
def serveursActifs (cmdb : List Server) (now : Int) : List Server :=
  (cmdb.filter (·.backup_enabled)).filter
    (fun s => !est_desactive_temporairement s now)

/-- `date_limite = datetime.now() - timedelta(hours=periode_heures)`. -/
def dateLimite (now : Int) (periodeHeures : Int) : Int := now - periodeHeures * 3600

/-- The rolling-window job selection of `calculer_conformite`:
`backup_time >= date_limite`, with no upper bound. -/
def jobsRecents (jobs : List Job) (now : Int) (periodeHeures : Int) : List Job :=
  jobs.filter (fun j => decide (dateLimite now periodeHeures ≤ j.backup_time))

/-- The sealed-window job selection of `archiver_conformite_quotidienne`:
`date_debut <= backup_time <= date_fin`. -/
def jobsPeriode (jobs : List Job) (debut fin : Int) : List Job :=
  jobs.filter (fun j => decide (debut ≤ j.backup_time) && decide (j.backup_time ≤ fin))

/-- The compliance test of `calculer_conformite`:
`host_norm in jobs_valides_par_host and len(jobs_valides_par_host[host_norm]) > 0`. -/
def condServeurConforme (m : List (Str × List Job)) (s : Server) : Bool :=
  match List.lookup (normalize_hostname s.hostname) m with
  | some l => decide (0 < l.length)
  | none => false

/-- The `conformes` list of `calculer_conformite`, in registry order. -/
def conformesCalc (m : List (Str × List Job)) (servers : List Server) : List Str :=
  (servers.filter (condServeurConforme m)).map (·.hostname)

/-- The `non_conformes` list of `calculer_conformite`, in registry order. -/
def nonConformesCalc (m : List (Str × List Job)) (servers : List Server) : List Str :=
  (servers.filter (fun s => !condServeurConforme m s)).map (·.hostname)

/-- The key set of `hostnames_cmdb_norm`: the normalized hostnames of the
in-scope servers. -/
def cmdbNormSet (servers : List Server) : List Str :=
  servers.map (fun s => normalize_hostname s.hostname)

/-- The `non_references` list of `calculer_conformite`: for every group key
absent from the registry key set, the hostname of the first job of the
group (`jobs_valides_par_host[host_norm][0].hostname`). -/
def nonReferencesCalc (m : List (Str × List Job)) (servers : List Server) : List Str :=
  (m.filter (fun kv => !(cmdbNormSet servers).contains kv.1)).map
    (fun kv => kv.2.head!.hostname)

/-- The archive path's compliance test: `normalize_hostname(s.hostname) in
hostnames_sauvegardes_norm`. -/
def archCond (dict : List (Str × Str)) (s : Server) : Bool :=
  (List.lookup (normalize_hostname s.hostname) dict).isSome

/-- The `conformes` list of the archive path. -/
def archConformes (dict : List (Str × Str)) (servers : List Server) : List Str :=
  (servers.filter (archCond dict)).map (·.hostname)

/-- The `non_conformes` list of the archive path. -/
def archNonConformes (dict : List (Str × Str)) (servers : List Server) : List Str :=
  (servers.filter (fun s => !archCond dict s)).map (·.hostname)

/-- The `non_references` list of the archive path: the stored original
hostname of every dict key absent from the registry key set. -/
def archNonReferences (dict : List (Str × Str)) (cmdbKeys : List Str) : List Str :=
  (dict.filter (fun kv => !cmdbKeys.contains kv.1)).map (·.2)

/-- The keys of an association list, in order. -/
def keysOf {α : Type} (m : List (Str × α)) : List Str := m.map (·.1)

/-- Invariant of the grouping of `calculer_conformite`: every group is
non-empty and all its jobs normalize to the group key. -/
def GroupeInv (m : List (Str × List Job)) : Prop :=
  ∀ kv ∈ m, kv.2 ≠ [] ∧ ∀ j ∈ kv.2, normalize_hostname j.hostname = kv.1

/-- Invariant of `hostnames_sauvegardes_norm`: every stored hostname
normalizes to its key. -/
def DictInv (d : List (Str × Str)) : Prop :=
  ∀ kv ∈ d, normalize_hostname kv.2 = kv.1

/-! ## Sorting and rounding -/

/-- Lexicographic order on strings by code point, as Python `sorted` uses. -/
def strLe (a b : Str) : Bool :=
  match a, b with
  | [], _ => true
  | _ :: _, [] => false
  | c :: restA, d :: restB => if c = d then strLe restA restB else decide (c < d)

/-- Python `sorted` on a list of strings. -/
def sortStr (l : List Str) : List Str := l.mergeSort strLe

/-- Round to the nearest integer, ties to even — the rounding Python's
`round` uses.  Floats are modelled as exact rationals. -/
def roundHalfToEven (q : ℚ) : ℤ :=
  let n := ⌊q⌋
  let r := q - n
  if r < 1/2 then n
  else if 1/2 < r then n + 1
  else if n % 2 = 0 then n else n + 1

/-- Python `round(x, 1)`. -/
def pyRound1 (q : ℚ) : ℚ := (roundHalfToEven (q * 10) : ℚ) / 10

/-! ## calculer_conformite -/

/-- The result dictionary returned by `calculer_conformite`. -/
structure ResultatConformite where
  total_cmdb : Nat
  total_backup_enabled : Nat
  total_attendus : Nat
  total_jobs : Nat
  conformes : Nat
  non_conformes : Nat
  non_references : Nat
  taux_conformite : ℚ
  liste_conformes : List Str
  liste_non_conformes : List Str
  liste_non_references : List Str
  error : Option Str
deriving DecidableEq, Inhabited, Repr

/-- The storage operations of `calculer_conformite` that can raise: the two
reads of step 2–3, the row-count read and the history commit. -/
inductive EtapeCalcul where
  | requeteCMDB
  | requeteJobs
  | requeteCount
  | commitHistorique
deriving DecidableEq, Repr

/-- A storage failure injected at one of the fallible steps, carrying the
exception text `str(e)`. -/
structure PanneStockage where
  etape : EtapeCalcul
  message : Str
deriving DecidableEq, Repr

/-- The zero-valued dictionary built by the `except` branch of
`calculer_conformite`, with `error = str(e)`. -/
def resultatErreur (msg : Str) : ResultatConformite :=
  { total_cmdb := 0, total_backup_enabled := 0, total_attendus := 0,
    total_jobs := 0, conformes := 0, non_conformes := 0, non_references := 0,
    taux_conformite := 0, liste_conformes := [], liste_non_conformes := [],
    liste_non_references := [], error := some msg }

/-- `calculer_conformite(periode_heures)` over an explicit store state.
Every storage access sits inside the function's single `try`; a failure at
any of them lands in the `except` branch, which returns the zero-valued
error dictionary (the partial result is discarded, so the returned value
does not depend on which step failed).  The 60-second result cache is
external memoization and is not part of the computation. -/
def calculer_conformite (cmdb : List Server) (jobs : List Job) (now : Int)
    (periode_heures : Int) (panne : Option PanneStockage) : ResultatConformite :=
  match panne with
  | some p => resultatErreur p.message
  | none =>
    let actifs := serveursActifs cmdb now
    let recents := jobsRecents jobs now periode_heures
    let m := jobsValidesParHost recents
    let conf := conformesCalc m actifs
    let nonConf := nonConformesCalc m actifs
    let nonRef := nonReferencesCalc m actifs
    let total := actifs.length
    let taux : ℚ := if 0 < total then (conf.length : ℚ) / (total : ℚ) * 100 else 0
    { total_cmdb := cmdb.length,
      total_backup_enabled := actifs.length,
      total_attendus := total,
      total_jobs := recents.length,
      conformes := conf.length,
      non_conformes := nonConf.length,
      non_references := nonRef.length,
      taux_conformite := pyRound1 taux,
      liste_conformes := sortStr conf,
      liste_non_conformes := sortStr nonConf,
      liste_non_references := sortStr nonRef,
      error := none }

/-! ## archiver_conformite_quotidienne -/

/-- An `ArchiveConformite` row. -/
structure Archive where
  date_archivage : Int
  date_debut_periode : Int
  date_fin_periode : Int
  total_cmdb : Nat
  total_backup_enabled : Nat
  total_jobs : Nat
  nb_conformes : Nat
  nb_non_conformes : Nat
  nb_non_references : Nat
  taux_conformite : ℚ
  liste_conformes : List Str
  liste_non_conformes : List Str
  liste_non_references : List Str
deriving DecidableEq, Inhabited, Repr

/-- The persistent state the archive path touches: the registry, the job
store, the archive table and the distributed `archive_daily_lock`. -/
structure EtatDB where
  cmdb : List Server
  jobs : List Job
  archives : List Archive
  lockHeld : Bool
deriving DecidableEq, Inhabited, Repr

/-- The `archive_config` entry read by the scheduled path
(default `heure=18, minute=0`). -/
structure ConfigArchive where
  heure : Int
  minute : Int
deriving DecidableEq, Inhabited, Repr

/-- The scheduled period: `date_fin = now.replace(hour, minute, 0, 0)`
(start of the current day plus the configured time of day),
`date_debut = date_fin - timedelta(days=1)`, both shifted one day back when
`now < date_fin`. -/
def periodeProgrammee (now : Int) (cfg : ConfigArchive) : Int × Int :=
  let finJour := (Int.fdiv now 86400) * 86400 + cfg.heure * 3600 + cfg.minute * 60
  let debut := finJour - 86400
  if now < finJour then (debut - 86400, finJour - 86400) else (debut, finJour)

/-- The storage operations of the archive path that can raise: the
idempotency lookup, the two reads, the row-count read and the commit. -/
inductive EtapeArchive where
  | requeteExiste
  | requeteCMDB
  | requeteJobs
  | requeteCount
  | commitArchive
deriving DecidableEq, Repr

/-- The dictionaries returned by `archiver_conformite_quotidienne`. -/
inductive ResultatArchive where
  /-- lock not acquired: another archive run is in progress -/
  | skippedLock
  /-- scheduled path: an archive for the period already exists -/
  | skippedExiste
  /-- archive created -/
  | succes (taux : ℚ) (dateDebut dateFin : Int)
  /-- the `except` branch: `return` of the error dictionary `str(e)` -/
  | erreur (message : Str)
deriving DecidableEq, Inhabited, Repr

/-- The error text injected at step `e`, when the run fails there. -/
def faultAt (panne : Option (EtapeArchive × Str)) (e : EtapeArchive) : Option Str :=
  match panne with
  | some (e', msg) => if e' = e then some msg else none
  | none => none

/-- The body of the `try` after the period is fixed: read the registry and
the sealed-window jobs, classify with the archive path's join (every job in
the window counts, valid or not), and commit the new row.  A failure at any
step reaches the `except` branch: `db.session.rollback()` discards the
pending insert — the archive table is only changed by the commit — and the
error dictionary is returned. -/
def corpsArchive (st : EtatDB) (now debut fin : Int)
    (panne : Option (EtapeArchive × Str)) : ResultatArchive × EtatDB :=
  match faultAt panne .requeteCMDB with
  | some msg => (.erreur msg, st)
  | none =>
  match faultAt panne .requeteJobs with
  | some msg => (.erreur msg, st)
  | none =>
  let actifs := serveursActifs st.cmdb now
  let jp := jobsPeriode st.jobs debut fin
  let dict := hostsSauvegardesNorm jp
  let cmdbKeys := cmdbNormSet actifs
  let conf := archConformes dict actifs
  let nonConf := archNonConformes dict actifs
  let nonRef := archNonReferences dict cmdbKeys
  let total := actifs.length
  let taux : ℚ := if 0 < total then (conf.length : ℚ) / (total : ℚ) * 100 else 0
  match faultAt panne .requeteCount with
  | some msg => (.erreur msg, st)
  | none =>
  match faultAt panne .commitArchive with
  | some msg => (.erreur msg, st)
  | none =>
  let archive : Archive :=
    { date_archivage := now,
      date_debut_periode := debut,
      date_fin_periode := fin,
      total_cmdb := st.cmdb.length,
      total_backup_enabled := actifs.length,
      total_jobs := jp.length,
      nb_conformes := conf.length,
      nb_non_conformes := nonConf.length,
      nb_non_references := nonRef.length,
      taux_conformite := pyRound1 taux,
      liste_conformes := sortStr conf,
      liste_non_conformes := sortStr nonConf,
      liste_non_references := sortStr nonRef }
  (.succes (pyRound1 taux) debut fin, { st with archives := st.archives ++ [archive] })

/-- `archiver_conformite_quotidienne(force_now)`.  The Redis lock is
acquired up front (when already held the call returns the locked-skip
dictionary without entering the `try`) and released in the `finally`, on
the success, skip and error paths alike.  The forced path uses the rolling
24-hour period ending at `now` and performs no idempotency lookup; the
scheduled path computes the sealed period and skips when an archive with
exactly that `(date_debut, date_fin)` pair already exists. -/
def archiver_conformite_quotidienne (st : EtatDB) (now : Int)
    (cfg : ConfigArchive) (force_now : Bool)
    (panne : Option (EtapeArchive × Str)) : ResultatArchive × EtatDB :=
  if st.lockHeld then (.skippedLock, st)
  else
    let locked : EtatDB := { st with lockHeld := true }
    let out :=
      if force_now then
        corpsArchive locked now (now - 86400) now panne
      else
        let pd := periodeProgrammee now cfg
        match faultAt panne .requeteExiste with
        | some msg => (.erreur msg, locked)
        | none =>
          if locked.archives.any
              (fun a => a.date_debut_periode == pd.1 && a.date_fin_periode == pd.2)
          then (.skippedExiste, locked)
          else corpsArchive locked now pd.1 pd.2 panne
    (out.1, { out.2 with lockHeld := false })

/-! ## Theorems -/

/-- C1: the validity classifier is claimed to accept statuses `0`, `1`,
case-insensitive `SUCCESS`, the empty string and `WARNING` (with positive
size).  The code disagrees on two of these: the truthiness guard
`job.status and ...` makes the `''` entry of the accept list unreachable,
and `WARNING` is absent from the accept list — even though the row model's
own `is_warning`/`is_success` helpers classify `'WARNING'` as an acceptable
warning and `''` as a success.  This theorem evaluates the code at the two
failing inputs and at an accepted control input. -/
theorem C1_validity_rejects_warning_and_empty :
    jobValide { hostname := strL "srv01", backup_time := 0,
                status := some (strL "Warning"), taille_gb := some 5 } = false
    ∧ jobValide { hostname := strL "srv01", backup_time := 0,
                  status := some (strL ""), taille_gb := some 5 } = false
    ∧ is_warning (some (strL "Warning")) = true
    ∧ is_success (some (strL "")) = true
    ∧ jobValide { hostname := strL "srv01", backup_time := 0,
                  status := some (strL "Success"), taille_gb := some 5 } = true
    ∧ jobValide { hostname := strL "srv01", backup_time := 0,
                  status := some (strL "1"), taille_gb := some 5 } = true
    ∧ jobValide { hostname := strL "srv01", backup_time := 0,
                  status := some (strL "0"), taille_gb := some 0 } = false := by
  decide

/-- C5 counterexample: a server whose suspension window is `[0, 100]` is,
at `now = 100`, still reported suspended by the code, while the claimed
half-open semantics `start <= now < end` would put it back in scope. -/
theorem C5_counterexample :
    ¬ (est_desactive_temporairement
        { hostname := strL "srv", backup_enabled := true,
          date_debut_desactivation := some 0,
          date_fin_desactivation := some 100 } 100 = true
       ↔ ((0 : Int) ≤ 100 ∧ (100 : Int) < 100)) := by
  decide

/-- C5 (amended): the suspension window is closed at both ends — a server
is reported suspended exactly when both bounds are present and
`start <= now <= end`, so a server whose window end equals the current
instant is still excluded; scope membership is `backup_enabled` and not
suspended, and a server with a missing bound is in scope exactly when its
flag is set. -/
theorem C5_suspension_closed_interval (s : Server) (now : Int) (cmdb : List Server) :
    (est_desactive_temporairement s now = true ↔
      ∃ d f, s.date_debut_desactivation = some d ∧ s.date_fin_desactivation = some f
        ∧ d ≤ now ∧ now ≤ f)
    ∧ (s ∈ serveursActifs cmdb now ↔
        s ∈ cmdb ∧ s.backup_enabled = true ∧ est_desactive_temporairement s now = false)
    ∧ ((s.date_debut_desactivation = none ∨ s.date_fin_desactivation = none) →
        (s ∈ serveursActifs [s] now ↔ s.backup_enabled = true)) := by
  refine ⟨?_, ?_, ?_⟩
  · unfold est_desactive_temporairement
    rcases hd : s.date_debut_desactivation with _ | d <;>
      rcases hf : s.date_fin_desactivation with _ | f <;> simp
  · simp only [serveursActifs, List.mem_filter, Bool.not_eq_true', and_assoc]
  · intro hnone
    have hdes : est_desactive_temporairement s now = false := by
      unfold est_desactive_temporairement
      rcases hd : s.date_debut_desactivation with _ | d <;>
        rcases hf : s.date_fin_desactivation with _ | f <;>
          simp_all [est_desactive_temporairement]
    simp [serveursActifs, List.mem_filter, hdes]

/-- C5 witness: the amended statement instantiated at a server with no
window and an unrelated registry. -/
theorem C5_suspension_closed_interval_witness :
    (est_desactive_temporairement
        { hostname := strL "web", backup_enabled := true } 7 = true ↔
      ∃ d f, (none : Option Int) = some d ∧ (none : Option Int) = some f
        ∧ d ≤ 7 ∧ 7 ≤ f)
    ∧ ({ hostname := strL "web", backup_enabled := true } ∈
          serveursActifs [{ hostname := strL "web", backup_enabled := true }] 7 ↔
        ({ hostname := strL "web", backup_enabled := true } : Server) ∈
            [({ hostname := strL "web", backup_enabled := true } : Server)]
          ∧ true = true
          ∧ est_desactive_temporairement
              { hostname := strL "web", backup_enabled := true } 7 = false)
    ∧ (((none : Option Int) = none ∨ (none : Option Int) = none) →
        ({ hostname := strL "web", backup_enabled := true } ∈
            serveursActifs [{ hostname := strL "web", backup_enabled := true }] 7 ↔
          true = true)) :=
  C5_suspension_closed_interval
    { hostname := strL "web", backup_enabled := true } 7
    [{ hostname := strL "web", backup_enabled := true }]

/-- C6: the rolling selection of `calculer_conformite` keeps every job at
or after `now - periode_heures`, with no upper bound; the sealed selection
of the archive path keeps exactly the jobs with
`date_debut <= backup_time <= date_fin`, so a job later than the period end
is excluded from the archive even when within the rolling window. -/
theorem C6_rolling_vs_sealed_window (jobs : List Job) (now ph debut fin : Int)
    (j : Job) :
    (j ∈ jobsRecents jobs now ph ↔ j ∈ jobs ∧ dateLimite now ph ≤ j.backup_time)
    ∧ (j ∈ jobsPeriode jobs debut fin ↔
        j ∈ jobs ∧ debut ≤ j.backup_time ∧ j.backup_time ≤ fin)
    ∧ (fin < j.backup_time → j ∉ jobsPeriode jobs debut fin) := by
  refine ⟨?_, ?_, ?_⟩
  · simp [jobsRecents, List.mem_filter]
  · simp [jobsPeriode, List.mem_filter]
  · intro hlate hmem
    simp [jobsPeriode, List.mem_filter] at hmem
    omega

/-- C6 witness: a job 10 seconds after the period end but inside the
rolling 24-hour window is selected by `compute` and rejected by the
archive selection. -/
theorem C6_rolling_vs_sealed_window_witness :
    (({ hostname := strL "h", backup_time := 110 } : Job) ∈
        jobsRecents [{ hostname := strL "h", backup_time := 110 }] 200 24 ↔
      ({ hostname := strL "h", backup_time := 110 } : Job) ∈
          [({ hostname := strL "h", backup_time := 110 } : Job)]
        ∧ dateLimite 200 24 ≤ 110)
    ∧ (({ hostname := strL "h", backup_time := 110 } : Job) ∈
          jobsPeriode [{ hostname := strL "h", backup_time := 110 }] 0 100 ↔
        ({ hostname := strL "h", backup_time := 110 } : Job) ∈
            [({ hostname := strL "h", backup_time := 110 } : Job)]
          ∧ (0 : Int) ≤ 110 ∧ (110 : Int) ≤ 100)
    ∧ ((100 : Int) < 110 →
        ({ hostname := strL "h", backup_time := 110 } : Job) ∉
          jobsPeriode [{ hostname := strL "h", backup_time := 110 }] 0 100) :=
  C6_rolling_vs_sealed_window
    [{ hostname := strL "h", backup_time := 110 }] 200 24 0 100
    { hostname := strL "h", backup_time := 110 }

/-- C9: a storage failure at any fallible step of `calculer_conformite` is
caught and surfaces as the zero-valued result dictionary — all counts 0,
rate 0, empty lists — with the error field holding the exception text; the
embedding is total, so nothing propagates. -/
theorem C9_storage_error_zeroed_result (cmdb : List Server) (jobs : List Job)
    (now ph : Int) (p : PanneStockage) :
    (calculer_conformite cmdb jobs now ph (some p)).total_cmdb = 0
    ∧ (calculer_conformite cmdb jobs now ph (some p)).total_backup_enabled = 0
    ∧ (calculer_conformite cmdb jobs now ph (some p)).total_attendus = 0
    ∧ (calculer_conformite cmdb jobs now ph (some p)).total_jobs = 0
    ∧ (calculer_conformite cmdb jobs now ph (some p)).conformes = 0
    ∧ (calculer_conformite cmdb jobs now ph (some p)).non_conformes = 0
    ∧ (calculer_conformite cmdb jobs now ph (some p)).non_references = 0
    ∧ (calculer_conformite cmdb jobs now ph (some p)).taux_conformite = 0
    ∧ (calculer_conformite cmdb jobs now ph (some p)).liste_conformes = []
    ∧ (calculer_conformite cmdb jobs now ph (some p)).liste_non_conformes = []
    ∧ (calculer_conformite cmdb jobs now ph (some p)).liste_non_references = []
    ∧ (calculer_conformite cmdb jobs now ph (some p)).error = some p.message := by
  simp [calculer_conformite, resultatErreur]

/-- `roundHalfToEven` returns the floor or the floor plus one. -/
theorem roundHalfToEven_eq_floor_or (q : ℚ) :
    roundHalfToEven q = ⌊q⌋ ∨ roundHalfToEven q = ⌊q⌋ + 1 := by
  unfold roundHalfToEven
  simp only
  split
  · exact Or.inl rfl
  · split
    · exact Or.inr rfl
    · split
      · exact Or.inl rfl
      · exact Or.inr rfl

/-- `roundHalfToEven` of a nonnegative rational is nonnegative. -/
theorem roundHalfToEven_nonneg {q : ℚ} (h : 0 ≤ q) : 0 ≤ roundHalfToEven q := by
  have hfl : 0 ≤ ⌊q⌋ := Int.floor_nonneg.mpr h
  rcases roundHalfToEven_eq_floor_or q with he | he <;> omega

/-- `roundHalfToEven` never rounds past an integer upper bound. -/
theorem roundHalfToEven_le {q : ℚ} {B : ℤ} (h : q ≤ B) : roundHalfToEven q ≤ B := by
  have hfl : ⌊q⌋ ≤ B := by
    have h1 := Int.floor_le_floor h
    simpa using h1
  have hflq : (⌊q⌋ : ℚ) ≤ q := Int.floor_le q
  by_cases hlt : q - ⌊q⌋ < 1/2
  · simp only [roundHalfToEven, if_pos hlt]
    exact hfl
  · have hge : (1/2 : ℚ) ≤ q - ⌊q⌋ := not_lt.mp hlt
    have hstep : ⌊q⌋ + 1 ≤ B := by
      have hlt2 : ((⌊q⌋ : ℤ) : ℚ) < (B : ℚ) := by linarith
      have : (⌊q⌋ : ℤ) < B := by exact_mod_cast hlt2
      omega
    simp only [roundHalfToEven]
    rw [if_neg hlt]
    by_cases hgt : (1/2 : ℚ) < q - ⌊q⌋
    · rw [if_pos hgt]
      exact hstep
    · rw [if_neg hgt]
      by_cases hev : ⌊q⌋ % 2 = 0
      · rw [if_pos hev]
        exact hfl
      · rw [if_neg hev]
        exact hstep

/-- `pyRound1` keeps a rate inside `[0, 100]`. -/
theorem pyRound1_bounds {q : ℚ} (h0 : 0 ≤ q) (h100 : q ≤ 100) :
    0 ≤ pyRound1 q ∧ pyRound1 q ≤ 100 := by
  have hn : 0 ≤ roundHalfToEven (q * 10) := roundHalfToEven_nonneg (by linarith)
  have hb : roundHalfToEven (q * 10) ≤ (1000 : ℤ) := by
    apply roundHalfToEven_le
    push_cast
    linarith
  constructor
  · unfold pyRound1
    have hc : (0 : ℚ) ≤ (roundHalfToEven (q * 10) : ℚ) := by exact_mod_cast hn
    exact div_nonneg hc (by norm_num)
  · unfold pyRound1
    have hc : ((roundHalfToEven (q * 10) : ℤ) : ℚ) ≤ 1000 := by exact_mod_cast hb
    rw [div_le_iff₀ (by norm_num : (0 : ℚ) < 10)]
    linarith

/-- The rate stored by `calculer_conformite`, unfolded. -/
theorem taux_calcul (cmdb : List Server) (jobs : List Job) (now ph : Int) :
    (calculer_conformite cmdb jobs now ph none).taux_conformite =
      pyRound1 (if 0 < (serveursActifs cmdb now).length
        then ((conformesCalc (jobsValidesParHost (jobsRecents jobs now ph))
                (serveursActifs cmdb now)).length : ℚ) /
              ((serveursActifs cmdb now).length : ℚ) * 100
        else 0) := rfl

/-- `pyRound1 0 = 0`. -/
theorem pyRound1_zero : pyRound1 0 = 0 := by
  norm_num [pyRound1, roundHalfToEven]

/-- C8: the rate returned by compute lies in `[0, 100]`, is an integer
number of tenths (rounded to one decimal), and is exactly `0` when the
in-scope server set is empty — the guarded division never divides by zero. -/
theorem C8_rate_bounds (cmdb : List Server) (jobs : List Job) (now ph : Int) :
    (0 ≤ (calculer_conformite cmdb jobs now ph none).taux_conformite
      ∧ (calculer_conformite cmdb jobs now ph none).taux_conformite ≤ 100)
    ∧ (∃ n : ℤ,
        (calculer_conformite cmdb jobs now ph none).taux_conformite = (n : ℚ) / 10)
    ∧ (serveursActifs cmdb now = [] →
        (calculer_conformite cmdb jobs now ph none).taux_conformite = 0) := by
  rw [taux_calcul]
  have hqb :
      0 ≤ (if 0 < (serveursActifs cmdb now).length
            then ((conformesCalc (jobsValidesParHost (jobsRecents jobs now ph))
                    (serveursActifs cmdb now)).length : ℚ) /
                  ((serveursActifs cmdb now).length : ℚ) * 100
            else 0)
      ∧ (if 0 < (serveursActifs cmdb now).length
            then ((conformesCalc (jobsValidesParHost (jobsRecents jobs now ph))
                    (serveursActifs cmdb now)).length : ℚ) /
                  ((serveursActifs cmdb now).length : ℚ) * 100
            else 0) ≤ 100 := by
    by_cases hpos : 0 < (serveursActifs cmdb now).length
    · rw [if_pos hpos]
      have hct : (conformesCalc (jobsValidesParHost (jobsRecents jobs now ph))
          (serveursActifs cmdb now)).length ≤ (serveursActifs cmdb now).length := by
        simp only [conformesCalc, List.length_map]
        exact List.length_filter_le _ _
      have hdiv : ((conformesCalc (jobsValidesParHost (jobsRecents jobs now ph))
            (serveursActifs cmdb now)).length : ℚ) /
              ((serveursActifs cmdb now).length : ℚ) ≤ 1 :=
        (div_le_one (by exact_mod_cast hpos)).mpr (by exact_mod_cast hct)
      constructor
      · positivity
      · linarith
    · rw [if_neg hpos]
      norm_num
  refine ⟨pyRound1_bounds hqb.1 hqb.2, ⟨_, rfl⟩, ?_⟩
  intro hempty
  rw [hempty]
  simp [pyRound1_zero]

/-- C8 witness: the bounds at a one-server registry with no jobs. -/
theorem C8_rate_bounds_witness :
    (0 ≤ (calculer_conformite [{ hostname := strL "web", backup_enabled := true }]
            [] 0 24 none).taux_conformite
      ∧ (calculer_conformite [{ hostname := strL "web", backup_enabled := true }]
            [] 0 24 none).taux_conformite ≤ 100)
    ∧ (∃ n : ℤ,
        (calculer_conformite [{ hostname := strL "web", backup_enabled := true }]
            [] 0 24 none).taux_conformite = (n : ℚ) / 10)
    ∧ (serveursActifs [{ hostname := strL "web", backup_enabled := true }] 0 = [] →
        (calculer_conformite [{ hostname := strL "web", backup_enabled := true }]
            [] 0 24 none).taux_conformite = 0) :=
  C8_rate_bounds [{ hostname := strL "web", backup_enabled := true }] [] 0 24

/-- `addToGroup` preserves the grouping invariant when the appended job
normalizes to the target key. -/
theorem addToGroup_inv {m : List (Str × List Job)} {k : Str} {j : Job}
    (hm : GroupeInv m) (hj : normalize_hostname j.hostname = k) :
    GroupeInv (addToGroup m k j) := by
  induction m with
  | nil =>
    intro kv hkv
    simp only [addToGroup, List.mem_singleton] at hkv
    subst hkv
    refine ⟨by simp, ?_⟩
    intro j' hj'
    simp only [List.mem_singleton] at hj'
    subst hj'
    exact hj
  | cons hd tl ih =>
    obtain ⟨k', l⟩ := hd
    have hhd := hm (k', l) (by simp)
    have htl : GroupeInv tl := fun kv hkv => hm kv (by simp [hkv])
    intro kv hkv
    by_cases hk : k' = k
    · simp only [addToGroup, if_pos hk, List.mem_cons] at hkv
      rcases hkv with hkv | hkv
      · subst hkv
        refine ⟨by simp, ?_⟩
        intro j' hj'
        rcases List.mem_append.mp hj' with h | h
        · exact hhd.2 j' h
        · simp only [List.mem_singleton] at h
          subst h
          rw [hj, hk]
      · exact htl kv hkv
    · simp only [addToGroup, if_neg hk, List.mem_cons] at hkv
      rcases hkv with hkv | hkv
      · subst hkv
        exact hhd
      · exact ih htl kv hkv

/-- The grouping of `calculer_conformite` satisfies its invariant. -/
theorem groupJobs_inv (p : Job → Bool) (jobs : List Job) :
    GroupeInv (groupJobs p jobs) := by
  suffices h : ∀ m, GroupeInv m →
      GroupeInv (jobs.foldl
        (fun m j => if p j then addToGroup m (normalize_hostname j.hostname) j else m)
        m) from
    h [] (by intro kv hkv; simp at hkv)
  induction jobs with
  | nil => intro m hm; simpa using hm
  | cons j rest ih =>
    intro m hm
    simp only [List.foldl_cons]
    by_cases hp : p j
    · rw [if_pos hp]
      exact ih _ (addToGroup_inv hm rfl)
    · rw [if_neg hp]
      exact ih _ hm

/-- `dictInsert` preserves the dictionary invariant when the stored value
normalizes to the target key. -/
theorem dictInsert_inv {d : List (Str × Str)} {k v : Str}
    (hd : DictInv d) (hv : normalize_hostname v = k) :
    DictInv (dictInsert d k v) := by
  induction d with
  | nil =>
    intro kv hkv
    simp only [dictInsert, List.mem_singleton] at hkv
    subst hkv
    exact hv
  | cons hd0 tl ih =>
    obtain ⟨k', v'⟩ := hd0
    have hhd := hd (k', v') (by simp)
    have htl : DictInv tl := fun kv hkv => hd kv (by simp [hkv])
    intro kv hkv
    by_cases hk : k' = k
    · simp only [dictInsert, if_pos hk, List.mem_cons] at hkv
      rcases hkv with hkv | hkv
      · subst hkv; exact hv
      · exact htl kv hkv
    · simp only [dictInsert, if_neg hk, List.mem_cons] at hkv
      rcases hkv with hkv | hkv
      · subst hkv; exact hhd
      · exact ih htl kv hkv

/-- `hostnames_sauvegardes_norm` satisfies the dictionary invariant. -/
theorem hostsSauvegardesNorm_inv (jobs : List Job) :
    DictInv (hostsSauvegardesNorm jobs) := by
  suffices h : ∀ d, DictInv d →
      DictInv (jobs.foldl
        (fun m j => dictInsert m (normalize_hostname j.hostname) j.hostname) d) from
    h [] (by intro kv hkv; simp at hkv)
  induction jobs with
  | nil => intro d hd; simpa using hd
  | cons j rest ih =>
    intro d hd
    simp only [List.foldl_cons]
    exact ih _ (dictInsert_inv hd rfl)

/-- The compliance test of `calculer_conformite` depends on the server only
through its hostname. -/
theorem cond_hostname {m : List (Str × List Job)} {s₁ s₂ : Server}
    (h : s₁.hostname = s₂.hostname) :
    condServeurConforme m s₁ = condServeurConforme m s₂ := by
  simp [condServeurConforme, h]

/-- A filter and its negation partition a list's length. -/
theorem length_partition {α : Type} (f : α → Bool) (l : List α) :
    (l.filter f).length + (l.filter (fun a => !f a)).length = l.length := by
  simpa using (List.length_eq_length_filter_add (l := l) f).symm

/-- The classification lists stored by `calculer_conformite`, unfolded. -/
theorem listes_calcul (cmdb : List Server) (jobs : List Job) (now ph : Int) :
    (calculer_conformite cmdb jobs now ph none).liste_conformes
        = sortStr (conformesCalc (jobsValidesParHost (jobsRecents jobs now ph))
            (serveursActifs cmdb now))
    ∧ (calculer_conformite cmdb jobs now ph none).liste_non_conformes
        = sortStr (nonConformesCalc (jobsValidesParHost (jobsRecents jobs now ph))
            (serveursActifs cmdb now))
    ∧ (calculer_conformite cmdb jobs now ph none).liste_non_references
        = sortStr (nonReferencesCalc (jobsValidesParHost (jobsRecents jobs now ph))
            (serveursActifs cmdb now))
    ∧ (calculer_conformite cmdb jobs now ph none).conformes
        = (conformesCalc (jobsValidesParHost (jobsRecents jobs now ph))
            (serveursActifs cmdb now)).length
    ∧ (calculer_conformite cmdb jobs now ph none).non_conformes
        = (nonConformesCalc (jobsValidesParHost (jobsRecents jobs now ph))
            (serveursActifs cmdb now)).length :=
  ⟨rfl, rfl, rfl, rfl, rfl⟩

/-- C4: after compute, the compliant and non-compliant lists partition the
in-scope servers — membership in exactly one of the two, and the counts add
up to the number of in-scope servers — and every unreferenced hostname
normalizes to a key outside the normalized in-scope registry set. -/
theorem C4_classification_partition (cmdb : List Server) (jobs : List Job)
    (now ph : Int) :
    (calculer_conformite cmdb jobs now ph none).conformes
        + (calculer_conformite cmdb jobs now ph none).non_conformes
        = (serveursActifs cmdb now).length
    ∧ (∀ s ∈ serveursActifs cmdb now,
        (s.hostname ∈ (calculer_conformite cmdb jobs now ph none).liste_conformes
          ∧ s.hostname ∉ (calculer_conformite cmdb jobs now ph none).liste_non_conformes)
        ∨ (s.hostname ∉ (calculer_conformite cmdb jobs now ph none).liste_conformes
          ∧ s.hostname ∈ (calculer_conformite cmdb jobs now ph none).liste_non_conformes))
    ∧ (∀ hn ∈ (calculer_conformite cmdb jobs now ph none).liste_non_references,
        normalize_hostname hn ∉ cmdbNormSet (serveursActifs cmdb now)) := by
  obtain ⟨hlc, hlnc, hlnr, hcc, hcnc⟩ := listes_calcul cmdb jobs now ph
  refine ⟨?_, ?_, ?_⟩
  · rw [hcc, hcnc]
    simp only [conformesCalc, nonConformesCalc, List.length_map]
    exact length_partition _ _
  · intro s hs
    rw [hlc, hlnc]
    simp only [sortStr, List.mem_mergeSort, conformesCalc, nonConformesCalc,
      List.mem_map, List.mem_filter]
    by_cases hcond : condServeurConforme
        (jobsValidesParHost (jobsRecents jobs now ph)) s = true
    · left
      refine ⟨⟨s, ⟨hs, hcond⟩, rfl⟩, ?_⟩
      rintro ⟨s', ⟨hs', hns'⟩, hname⟩
      rw [cond_hostname hname, hcond] at hns'
      simp at hns'
    · right
      refine ⟨?_, ⟨s, ⟨hs, by simp [hcond]⟩, rfl⟩⟩
      rintro ⟨s', ⟨hs', hns'⟩, hname⟩
      rw [cond_hostname hname] at hns'
      exact hcond hns'
  · intro hn hmem
    rw [hlnr] at hmem
    simp only [sortStr, List.mem_mergeSort, nonReferencesCalc, List.mem_map,
      List.mem_filter] at hmem
    obtain ⟨kv, ⟨hkvm, hkvf⟩, hkvn⟩ := hmem
    obtain ⟨hne, hhom⟩ := groupJobs_inv jobValide (jobsRecents jobs now ph) kv hkvm
    have hhead : kv.2.head! ∈ kv.2 := List.head!_mem_self hne
    have hnorm : normalize_hostname hn = kv.1 := by
      rw [← hkvn]
      exact hhom _ hhead
    rw [hnorm]
    intro hinset
    have hcont : (cmdbNormSet (serveursActifs cmdb now)).contains kv.1 = true :=
      List.contains_iff_exists_mem_beq.mpr ⟨kv.1, hinset, by simp⟩
    rw [hcont] at hkvf
    simp at hkvf

/-- C4 witness: the partition at a registry with one matched and one
unmatched server and one out-of-registry job. -/
theorem C4_classification_partition_witness :
    (calculer_conformite
          [{ hostname := strL "alpha", backup_enabled := true },
           { hostname := strL "beta", backup_enabled := true }]
          [{ hostname := strL "alpha", backup_time := 0,
             status := some (strL "0"), taille_gb := some 5 },
           { hostname := strL "gamma", backup_time := 0,
             status := some (strL "0"), taille_gb := some 5 }]
          0 24 none).conformes
        + (calculer_conformite
          [{ hostname := strL "alpha", backup_enabled := true },
           { hostname := strL "beta", backup_enabled := true }]
          [{ hostname := strL "alpha", backup_time := 0,
             status := some (strL "0"), taille_gb := some 5 },
           { hostname := strL "gamma", backup_time := 0,
             status := some (strL "0"), taille_gb := some 5 }]
          0 24 none).non_conformes
        = (serveursActifs
            [{ hostname := strL "alpha", backup_enabled := true },
             { hostname := strL "beta", backup_enabled := true }] 0).length
    ∧ (∀ s ∈ serveursActifs
          [{ hostname := strL "alpha", backup_enabled := true },
           { hostname := strL "beta", backup_enabled := true }] 0,
        (s.hostname ∈ (calculer_conformite
            [{ hostname := strL "alpha", backup_enabled := true },
             { hostname := strL "beta", backup_enabled := true }]
            [{ hostname := strL "alpha", backup_time := 0,
               status := some (strL "0"), taille_gb := some 5 },
             { hostname := strL "gamma", backup_time := 0,
               status := some (strL "0"), taille_gb := some 5 }]
            0 24 none).liste_conformes
          ∧ s.hostname ∉ (calculer_conformite
            [{ hostname := strL "alpha", backup_enabled := true },
             { hostname := strL "beta", backup_enabled := true }]
            [{ hostname := strL "alpha", backup_time := 0,
               status := some (strL "0"), taille_gb := some 5 },
             { hostname := strL "gamma", backup_time := 0,
               status := some (strL "0"), taille_gb := some 5 }]
            0 24 none).liste_non_conformes)
        ∨ (s.hostname ∉ (calculer_conformite
            [{ hostname := strL "alpha", backup_enabled := true },
             { hostname := strL "beta", backup_enabled := true }]
            [{ hostname := strL "alpha", backup_time := 0,
               status := some (strL "0"), taille_gb := some 5 },
             { hostname := strL "gamma", backup_time := 0,
               status := some (strL "0"), taille_gb := some 5 }]
            0 24 none).liste_conformes
          ∧ s.hostname ∈ (calculer_conformite
            [{ hostname := strL "alpha", backup_enabled := true },
             { hostname := strL "beta", backup_enabled := true }]
            [{ hostname := strL "alpha", backup_time := 0,
               status := some (strL "0"), taille_gb := some 5 },
             { hostname := strL "gamma", backup_time := 0,
               status := some (strL "0"), taille_gb := some 5 }]
            0 24 none).liste_non_conformes))
    ∧ (∀ hn ∈ (calculer_conformite
          [{ hostname := strL "alpha", backup_enabled := true },
           { hostname := strL "beta", backup_enabled := true }]
          [{ hostname := strL "alpha", backup_time := 0,
             status := some (strL "0"), taille_gb := some 5 },
           { hostname := strL "gamma", backup_time := 0,
             status := some (strL "0"), taille_gb := some 5 }]
          0 24 none).liste_non_references,
        normalize_hostname hn ∉ cmdbNormSet (serveursActifs
          [{ hostname := strL "alpha", backup_enabled := true },
           { hostname := strL "beta", backup_enabled := true }] 0)) :=
  C4_classification_partition
    [{ hostname := strL "alpha", backup_enabled := true },
     { hostname := strL "beta", backup_enabled := true }]
    [{ hostname := strL "alpha", backup_time := 0,
       status := some (strL "0"), taille_gb := some 5 },
     { hostname := strL "gamma", backup_time := 0,
       status := some (strL "0"), taille_gb := some 5 }]
    0 24

/-- `Char.ofNat` of a valid scalar value decodes back to it. -/
theorem toNat_ofNat_valid {n : Nat} (h : n < 55296) : (Char.ofNat n).toNat = n := by
  rw [Char.ofNat, dif_pos (Or.inl h)]
  simp [Char.ofNatAux, Char.toNat, UInt32.toNat]

/-- Lower-casing a character twice is the same as once. -/
theorem toLower_toLower (c : Char) : c.toLower.toLower = c.toLower := by
  by_cases h : c.toNat ≥ 65 ∧ c.toNat ≤ 90
  · have h1 : c.toLower = Char.ofNat (c.toNat + 32) := by
      unfold Char.toLower
      rw [if_pos h]
    have h2 : (Char.ofNat (c.toNat + 32)).toNat = c.toNat + 32 :=
      toNat_ofNat_valid (by omega)
    rw [h1]
    unfold Char.toLower
    rw [if_neg (by omega)]
  · have h1 : c.toLower = c := by
      unfold Char.toLower
      rw [if_neg h]
    rw [h1]
    exact h1

/-- Characters survive `pyStrip` from the original string. -/
theorem mem_of_mem_pyStrip {c : Char} {s : Str} (h : c ∈ pyStrip s) : c ∈ s := by
  unfold pyStrip at h
  rw [List.mem_reverse] at h
  have h1 := (List.dropWhile_sublist (l := (s.dropWhile pyIsSpace).reverse) pyIsSpace).subset h
  rw [List.mem_reverse] at h1
  exact (List.dropWhile_sublist pyIsSpace).subset h1

/-- Characters survive `cutAt` from the original string. -/
theorem mem_of_mem_cutAt {c sep : Char} {s : Str} (h : c ∈ cutAt sep s) : c ∈ s := by
  unfold cutAt at h
  split at h
  · exact (List.takeWhile_sublist _).subset h
  · exact h

/-- Characters survive the suffix-stripping loop. -/
theorem mem_of_mem_foldl_dropSuf {c : Char} :
    ∀ (L : List Str) (s : Str), c ∈ L.foldl dropSufIfEnds s → c ∈ s := by
  intro L
  induction L with
  | nil => intro s h; simpa using h
  | cons suf rest ih =>
    intro s h
    rw [List.foldl_cons] at h
    have h1 := ih _ h
    unfold dropSufIfEnds at h1
    split at h1
    · exact (List.take_sublist _ _).subset h1
    · exact h1

/-- Characters survive the head-marker-stripping loop. -/
theorem mem_of_mem_foldl_dropPre {c : Char} :
    ∀ (L : List Str) (s : Str), c ∈ L.foldl dropPreIfStarts s → c ∈ s := by
  intro L
  induction L with
  | nil => intro s h; simpa using h
  | cons p rest ih =>
    intro s h
    rw [List.foldl_cons] at h
    have h1 := ih _ h
    unfold dropPreIfStarts at h1
    split at h1
    · exact (List.drop_sublist _ _).subset h1
    · exact h1

/-- Every character of a normalized hostname is lower-case-fixed. -/
theorem normalize_lower_fixed (h : Str) :
    ∀ c ∈ normalize_hostname h, c.toLower = c := by
  intro c hc
  unfold normalize_hostname at hc
  split at hc
  · simp at hc
  · have h1 := mem_of_mem_foldl_dropPre _ _ hc
    have h2 := mem_of_mem_foldl_dropSuf _ _ h1
    have h3 := mem_of_mem_cutAt h2
    have h4 := mem_of_mem_cutAt h3
    have h5 := mem_of_mem_pyStrip h4
    obtain ⟨c0, _, hmap⟩ := List.mem_map.mp h5
    rw [← hmap]
    exact toLower_toLower c0

/-- The separator cut out by `cutAt` is absent from the result. -/
theorem not_mem_cutAt {sep : Char} {s : Str} : sep ∉ cutAt sep s := by
  intro hmem
  unfold cutAt at hmem
  split at hmem
  · have hp := List.mem_takeWhile_imp hmem
    simp at hp
  · next hcont =>
    exact hcont (List.contains_iff_exists_mem_beq.mpr ⟨sep, hmem, by simp⟩)

/-- A normalized hostname contains no dot. -/
theorem normalize_dot_free (h : Str) : '.' ∉ normalize_hostname h := by
  intro hc
  unfold normalize_hostname at hc
  split at hc
  · simp at hc
  · have h1 := mem_of_mem_foldl_dropPre _ _ hc
    have h2 := mem_of_mem_foldl_dropSuf _ _ h1
    have h3 := mem_of_mem_cutAt h2
    exact not_mem_cutAt h3

/-- A normalized hostname contains no `@`. -/
theorem normalize_at_free (h : Str) : '@' ∉ normalize_hostname h := by
  intro hc
  unfold normalize_hostname at hc
  split at hc
  · simp at hc
  · have h1 := mem_of_mem_foldl_dropPre _ _ hc
    have h2 := mem_of_mem_foldl_dropSuf _ _ h1
    exact not_mem_cutAt h2

/-- `normalize_hostname`, with its let-chain written out. -/
theorem normalize_unfold (x : Str) :
    normalize_hostname x =
      if x = [] then []
      else prefixesNorm.foldl dropPreIfStarts
        (suffixesNorm.foldl dropSufIfEnds
          (cutAt '@' (cutAt '.' (pyStrip (pyLower x))))) := rfl

/-- A string of lower-case-fixed characters is unchanged by `pyLower`. -/
theorem pyLower_fixed : ∀ s : Str, (∀ c ∈ s, c.toLower = c) → pyLower s = s := by
  intro s
  induction s with
  | nil => intro _; rfl
  | cons c rest ih =>
    intro h
    have htl : pyLower rest = rest := ih (fun c' hc' => h c' (by simp [hc']))
    unfold pyLower at htl ⊢
    simp only [List.map_cons]
    rw [h c (by simp), htl]

/-- `cutAt` is the identity when the separator is absent. -/
theorem cutAt_of_not_mem {sep : Char} {s : Str} (h : sep ∉ s) : cutAt sep s = s := by
  unfold cutAt
  rw [if_neg]
  intro hcont
  obtain ⟨a, hmem, hbeq⟩ := List.contains_iff_exists_mem_beq.mp hcont
  exact h (by rwa [eq_of_beq hbeq])

/-- A fold whose every step fixes the accumulator is the identity. -/
theorem foldl_fixed {α β : Type} (f : β → α → β) (L : List α) (s : β)
    (h : ∀ x ∈ L, f s x = s) : L.foldl f s = s := by
  induction L with
  | nil => rfl
  | cons x rest ih =>
    rw [List.foldl_cons, h x (by simp)]
    exact ih (fun y hy => h y (by simp [hy]))

/-- C3 counterexample: `normalize_hostname` is not idempotent — the suffix
loop removes each backup suffix at most once per pass, so a doubled suffix
survives one pass and falls to the next. -/
theorem C3_counterexample :
    normalize_hostname (normalize_hostname (strL "a_bkp_bkp"))
      ≠ normalize_hostname (strL "a_bkp_bkp") := by
  decide

/-- C3 (amended): `normalize(normalize(x)) == normalize(x)` for every `x`
whose normalized form is already stripped of surrounding whitespace, does
not end with one of the backup suffixes and does not start with one of the
backup head-markers; without these conditions idempotence fails (see the
counterexample). -/
theorem C3_normalize_idempotent_on_fixed (h : Str)
    (hstrip : pyStrip (normalize_hostname h) = normalize_hostname h)
    (hsuf : ∀ suf ∈ suffixesNorm, suf.isSuffixOf (normalize_hostname h) = false)
    (hpre : ∀ p ∈ prefixesNorm, p.isPrefixOf (normalize_hostname h) = false) :
    normalize_hostname (normalize_hostname h) = normalize_hostname h := by
  by_cases hnil : normalize_hostname h = []
  · rw [hnil]
    rfl
  · have hlow : pyLower (normalize_hostname h) = normalize_hostname h :=
      pyLower_fixed _ (normalize_lower_fixed h)
    have hdot : cutAt '.' (normalize_hostname h) = normalize_hostname h :=
      cutAt_of_not_mem (normalize_dot_free h)
    have hat : cutAt '@' (normalize_hostname h) = normalize_hostname h :=
      cutAt_of_not_mem (normalize_at_free h)
    have hsufl : suffixesNorm.foldl dropSufIfEnds (normalize_hostname h)
        = normalize_hostname h := by
      apply foldl_fixed
      intro suf hs
      unfold dropSufIfEnds
      rw [if_neg]
      rw [hsuf suf hs]
      simp
    have hprel : prefixesNorm.foldl dropPreIfStarts (normalize_hostname h)
        = normalize_hostname h := by
      apply foldl_fixed
      intro p hp
      unfold dropPreIfStarts
      rw [if_neg]
      rw [hpre p hp]
      simp
    rw [normalize_unfold (normalize_hostname h), if_neg hnil,
      hlow, hstrip, hdot, hat, hsufl, hprel]

/-- C3 witness: the amended statement at `Server01.prod.local`, whose
normalized form `server01` satisfies all three fixed-point conditions. -/
theorem C3_normalize_idempotent_on_fixed_witness :
    normalize_hostname (normalize_hostname (strL "Server01.prod.local"))
      = normalize_hostname (strL "Server01.prod.local") :=
  C3_normalize_idempotent_on_fixed (strL "Server01.prod.local")
    (by decide) (by decide) (by decide)

/-- Keys after a `dictInsert`. -/
theorem keysOf_dictInsert (d : List (Str × Str)) (k v : Str) :
    keysOf (dictInsert d k v)
      = if k ∈ keysOf d then keysOf d else keysOf d ++ [k] := by
  induction d with
  | nil => simp [dictInsert, keysOf]
  | cons hd tl ih =>
    obtain ⟨k', v'⟩ := hd
    by_cases hk : k' = k
    · subst hk
      simp [dictInsert, keysOf]
    · rw [show dictInsert ((k', v') :: tl) k v = (k', v') :: dictInsert tl k v from
        by simp [dictInsert, hk]]
      rw [show keysOf ((k', v') :: dictInsert tl k v)
          = k' :: keysOf (dictInsert tl k v) from rfl]
      rw [show keysOf ((k', v') :: tl) = k' :: keysOf tl from rfl]
      rw [ih]
      by_cases hmem : k ∈ keysOf tl
      · rw [if_pos hmem, if_pos (List.mem_cons.mpr (Or.inr hmem))]
      · rw [if_neg hmem, if_neg (by
          rw [List.mem_cons]
          rintro (he | hm)
          · exact hk he.symm
          · exact hmem hm)]
        rfl

/-- Keys after an `addToGroup`. -/
theorem keysOf_addToGroup (m : List (Str × List Job)) (k : Str) (j : Job) :
    keysOf (addToGroup m k j)
      = if k ∈ keysOf m then keysOf m else keysOf m ++ [k] := by
  induction m with
  | nil => simp [addToGroup, keysOf]
  | cons hd tl ih =>
    obtain ⟨k', l⟩ := hd
    by_cases hk : k' = k
    · subst hk
      simp [addToGroup, keysOf]
    · rw [show addToGroup ((k', l) :: tl) k j = (k', l) :: addToGroup tl k j from
        by simp [addToGroup, hk]]
      rw [show keysOf ((k', l) :: addToGroup tl k j)
          = k' :: keysOf (addToGroup tl k j) from rfl]
      rw [show keysOf ((k', l) :: tl) = k' :: keysOf tl from rfl]
      rw [ih]
      by_cases hmem : k ∈ keysOf tl
      · rw [if_pos hmem, if_pos (List.mem_cons.mpr (Or.inr hmem))]
      · rw [if_neg hmem, if_neg (by
          rw [List.mem_cons]
          rintro (he | hm)
          · exact hk he.symm
          · exact hmem hm)]
        rfl

/-- The archive dict and the unfiltered grouping build the same key
sequence from the same jobs. -/
theorem keysOf_dict_eq_group (jobs : List Job) :
    keysOf (hostsSauvegardesNorm jobs)
      = keysOf (groupJobs (fun _ => true) jobs) := by
  suffices h : ∀ (d : List (Str × Str)) (m : List (Str × List Job)),
      keysOf d = keysOf m →
      keysOf (jobs.foldl
          (fun m' j => dictInsert m' (normalize_hostname j.hostname) j.hostname) d)
        = keysOf (jobs.foldl
          (fun m' j => if (fun _ => true) j then
              addToGroup m' (normalize_hostname j.hostname) j else m') m) from
    h [] [] rfl
  induction jobs with
  | nil => intro d m hk; simpa using hk
  | cons j rest ih =>
    intro d m hk
    simp only [List.foldl_cons, if_pos]
    apply ih
    rw [keysOf_dictInsert, keysOf_addToGroup, hk]

/-- A successful `List.lookup` returns an entry of the list. -/
theorem lookup_mem {α : Type} {m : List (Str × α)} {k : Str} {v : α}
    (h : List.lookup k m = some v) : (k, v) ∈ m := by
  induction m with
  | nil => exact Option.noConfusion h
  | cons hd tl ih =>
    obtain ⟨k', v'⟩ := hd
    rw [List.lookup] at h
    by_cases hk : (k == k') = true
    · rw [hk] at h
      simp only [Option.some.injEq] at h
      subst h
      exact List.mem_cons.mpr (Or.inl (by rw [eq_of_beq hk]))
    · rw [Bool.not_eq_true] at hk
      rw [hk] at h
      exact List.mem_cons.mpr (Or.inr (ih h))

/-- `List.lookup` succeeds exactly on the stored keys. -/
theorem lookup_isSome_iff {α : Type} (m : List (Str × α)) (k : Str) :
    (List.lookup k m).isSome = true ↔ k ∈ keysOf m := by
  induction m with
  | nil =>
    constructor
    · intro h
      exact Option.noConfusion (Option.isSome_iff_exists.mp h).choose_spec
    · intro h
      exact absurd h (List.not_mem_nil k)
  | cons hd tl ih =>
    obtain ⟨k', v'⟩ := hd
    rw [List.lookup]
    by_cases hk : k = k'
    · subst hk
      rw [show (k == k) = true from beq_self_eq_true k]
      constructor
      · intro _
        show k ∈ keysOf ((k, v') :: tl)
        rw [show keysOf ((k, v') :: tl) = k :: keysOf tl from rfl]
        exact List.mem_cons_self k _
      · intro _
        rfl
    · rw [show (k == k') = false from beq_eq_false_iff_ne.mpr hk]
      rw [show keysOf ((k', v') :: tl) = k' :: keysOf tl from rfl]
      show (List.lookup k tl).isSome = true ↔ k ∈ k' :: keysOf tl
      constructor
      · intro h
        exact List.mem_cons.mpr (Or.inr (ih.mp h))
      · intro h
        rcases List.mem_cons.mp h with he | hm
        · exact absurd he hk
        · exact ih.mpr hm

/-- Over an invariant-respecting grouping, the compliance test of
`calculer_conformite` collapses to key membership. -/
theorem cond_eq_lookup_isSome {m : List (Str × List Job)} (hinv : GroupeInv m)
    (s : Server) :
    condServeurConforme m s
      = (List.lookup (normalize_hostname s.hostname) m).isSome := by
  unfold condServeurConforme
  cases hl : List.lookup (normalize_hostname s.hostname) m with
  | none => simp
  | some l =>
    have hne : l ≠ [] := (hinv _ (lookup_mem hl)).1
    simp [List.length_pos, hne]

/-- Filtering an association list by a key test filters its keys. -/
theorem keysOf_filter_key {α : Type} (g : Str → Bool) (m : List (Str × α)) :
    keysOf (m.filter (fun kv => g kv.1)) = (keysOf m).filter g := by
  induction m with
  | nil => rfl
  | cons hd tl ih =>
    obtain ⟨k', v'⟩ := hd
    by_cases hg : g k'
    · simp [keysOf, List.filter_cons, hg] at ih ⊢
      exact ih
    · simp only [Bool.not_eq_true] at hg
      simp [keysOf, List.filter_cons, hg] at ih ⊢
      exact ih

/-- C2 counterexample: one in-scope server and, inside the window, a single
job with failure status `2` and size `0`.  The §4.3 join (validity filter
included) classifies the server non-compliant, but the archive join counts
the invalid job as backup evidence and classifies it compliant. -/
theorem C2_counterexample :
    archConformes
        (hostsSauvegardesNorm (jobsPeriode
          [{ hostname := strL "alpha", backup_time := 50,
             status := some (strL "2"), taille_gb := some 0 }] 0 100))
        [{ hostname := strL "alpha", backup_enabled := true }]
      ≠ conformesCalc
        (jobsValidesParHost (jobsPeriode
          [{ hostname := strL "alpha", backup_time := 50,
             status := some (strL "2"), taille_gb := some 0 }] 0 100))
        [{ hostname := strL "alpha", backup_enabled := true }] := by
  decide

/-- C2 (amended): the archive path's classification over the sealed window
equals the compute classification applied to the window jobs with the §4.2
validity filter dropped — every job in the window counts as backup
evidence.  Compliant and non-compliant lists coincide exactly; the
unreferenced lists name the same normalized hostnames (the two paths may
store different representative spellings: compute keeps the first job of a
group, archive the last). -/
theorem C2_archive_join_vs_compute (servers : List Server) (jobs : List Job)
    (debut fin : Int) :
    archConformes (hostsSauvegardesNorm (jobsPeriode jobs debut fin)) servers
      = conformesCalc (groupJobs (fun _ => true) (jobsPeriode jobs debut fin)) servers
    ∧ archNonConformes (hostsSauvegardesNorm (jobsPeriode jobs debut fin)) servers
      = nonConformesCalc (groupJobs (fun _ => true) (jobsPeriode jobs debut fin)) servers
    ∧ (archNonReferences (hostsSauvegardesNorm (jobsPeriode jobs debut fin))
          (cmdbNormSet servers)).map normalize_hostname
      = (nonReferencesCalc (groupJobs (fun _ => true) (jobsPeriode jobs debut fin))
          servers).map normalize_hostname := by
  have hkeys := keysOf_dict_eq_group (jobsPeriode jobs debut fin)
  have hinv := groupJobs_inv (fun _ => true) (jobsPeriode jobs debut fin)
  have hdinv := hostsSauvegardesNorm_inv (jobsPeriode jobs debut fin)
  have hcond : ∀ s : Server,
      archCond (hostsSauvegardesNorm (jobsPeriode jobs debut fin)) s
        = condServeurConforme (groupJobs (fun _ => true) (jobsPeriode jobs debut fin)) s := by
    intro s
    rw [cond_eq_lookup_isSome hinv]
    unfold archCond
    have h1 := lookup_isSome_iff (hostsSauvegardesNorm (jobsPeriode jobs debut fin))
      (normalize_hostname s.hostname)
    have h2 := lookup_isSome_iff (groupJobs (fun _ => true) (jobsPeriode jobs debut fin))
      (normalize_hostname s.hostname)
    rw [hkeys] at h1
    exact Bool.eq_iff_iff.mpr (h1.trans h2.symm)
  refine ⟨?_, ?_, ?_⟩
  · unfold archConformes conformesCalc
    rw [List.filter_congr (fun s _ => hcond s)]
  · unfold archNonConformes nonConformesCalc
    rw [List.filter_congr (fun s _ => by rw [hcond s])]
  · unfold archNonReferences nonReferencesCalc
    rw [List.map_map, List.map_map]
    have hL : ((hostsSauvegardesNorm (jobsPeriode jobs debut fin)).filter
          (fun kv => !(cmdbNormSet servers).contains kv.1)).map
            (normalize_hostname ∘ (·.2))
        = keysOf ((hostsSauvegardesNorm (jobsPeriode jobs debut fin)).filter
          (fun kv => !(cmdbNormSet servers).contains kv.1)) := by
      apply List.map_congr_left
      intro kv hkv
      exact hdinv kv (List.mem_filter.mp hkv).1
    have hR : ((groupJobs (fun _ => true) (jobsPeriode jobs debut fin)).filter
          (fun kv => !(cmdbNormSet servers).contains kv.1)).map
            (normalize_hostname ∘ (fun kv => kv.2.head!.hostname))
        = keysOf ((groupJobs (fun _ => true) (jobsPeriode jobs debut fin)).filter
          (fun kv => !(cmdbNormSet servers).contains kv.1)) := by
      apply List.map_congr_left
      intro kv hkv
      obtain ⟨hne, hhom⟩ := hinv kv (List.mem_filter.mp hkv).1
      exact hhom _ (List.head!_mem_self hne)
    rw [hL, hR,
      keysOf_filter_key (fun k => !(cmdbNormSet servers).contains k)
        (hostsSauvegardesNorm (jobsPeriode jobs debut fin)),
      keysOf_filter_key (fun k => !(cmdbNormSet servers).contains k)
        (groupJobs (fun _ => true) (jobsPeriode jobs debut fin)),
      hkeys]

/-- The fault-free body of the archive `try` commits exactly one new row,
carrying the sealed period. -/
theorem corpsArchive_none (st : EtatDB) (now debut fin : Int) :
    ∃ a : Archive,
      corpsArchive st now debut fin none
        = (ResultatArchive.succes a.taux_conformite debut fin,
           { st with archives := st.archives ++ [a] })
      ∧ a.date_debut_periode = debut ∧ a.date_fin_periode = fin := by
  exact ⟨{ date_archivage := now
           date_debut_periode := debut
           date_fin_periode := fin
           total_cmdb := st.cmdb.length
           total_backup_enabled := (serveursActifs st.cmdb now).length
           total_jobs := (jobsPeriode st.jobs debut fin).length
           nb_conformes := (archConformes (hostsSauvegardesNorm
             (jobsPeriode st.jobs debut fin)) (serveursActifs st.cmdb now)).length
           nb_non_conformes := (archNonConformes (hostsSauvegardesNorm
             (jobsPeriode st.jobs debut fin)) (serveursActifs st.cmdb now)).length
           nb_non_references := (archNonReferences (hostsSauvegardesNorm
             (jobsPeriode st.jobs debut fin))
             (cmdbNormSet (serveursActifs st.cmdb now))).length
           taux_conformite := pyRound1 (if 0 < (serveursActifs st.cmdb now).length
             then ((archConformes (hostsSauvegardesNorm (jobsPeriode st.jobs debut fin))
                 (serveursActifs st.cmdb now)).length : ℚ) /
               ((serveursActifs st.cmdb now).length : ℚ) * 100 else 0)
           liste_conformes := sortStr (archConformes (hostsSauvegardesNorm
             (jobsPeriode st.jobs debut fin)) (serveursActifs st.cmdb now))
           liste_non_conformes := sortStr (archNonConformes (hostsSauvegardesNorm
             (jobsPeriode st.jobs debut fin)) (serveursActifs st.cmdb now))
           liste_non_references := sortStr (archNonReferences (hostsSauvegardesNorm
             (jobsPeriode st.jobs debut fin))
             (cmdbNormSet (serveursActifs st.cmdb now))) }, rfl, rfl, rfl⟩

/-- A fault at any step of the `try` body other than the idempotency lookup
reaches the `except` branch: the error dictionary comes back and the
rollback leaves the archive table untouched. -/
theorem corpsArchive_fault (st : EtatDB) (now debut fin : Int)
    (e : EtapeArchive) (msg : Str) (he : e ≠ EtapeArchive.requeteExiste) :
    corpsArchive st now debut fin (some (e, msg))
      = (ResultatArchive.erreur msg, st) := by
  cases e
  case requeteExiste => exact absurd rfl he
  case requeteCMDB => rfl
  case requeteJobs => rfl
  case requeteCount => rfl
  case commitArchive => rfl

/-- The forced path of the archiver: lock, run the body over the rolling
24-hour period ending at `now` (no idempotency lookup), unlock. -/
theorem archiver_forced (st : EtatDB) (now : Int) (cfg : ConfigArchive)
    (panne : Option (EtapeArchive × Str)) (hlock : st.lockHeld = false) :
    archiver_conformite_quotidienne st now cfg true panne
      = ((corpsArchive { st with lockHeld := true } now (now - 86400) now panne).1,
         { (corpsArchive { st with lockHeld := true } now (now - 86400) now panne).2
            with lockHeld := false }) := by
  unfold archiver_conformite_quotidienne
  rw [if_neg (by simp [hlock])]
  rfl

/-- The scheduled path when the idempotency lookup itself fails. -/
theorem archiver_sched_fault_existe (st : EtatDB) (now : Int) (cfg : ConfigArchive)
    (msg : Str) (hlock : st.lockHeld = false) :
    archiver_conformite_quotidienne st now cfg false
        (some (EtapeArchive.requeteExiste, msg))
      = (ResultatArchive.erreur msg, { st with lockHeld := false }) := by
  unfold archiver_conformite_quotidienne
  rw [if_neg (by simp [hlock])]
  rfl

/-- The scheduled path when an archive with the computed period already
exists: skip, write nothing, release the lock. -/
theorem archiver_sched_existing (st : EtatDB) (now : Int) (cfg : ConfigArchive)
    (panne : Option (EtapeArchive × Str)) (hlock : st.lockHeld = false)
    (hne : faultAt panne EtapeArchive.requeteExiste = none)
    (hany : st.archives.any (fun a =>
        a.date_debut_periode == (periodeProgrammee now cfg).1
          && a.date_fin_periode == (periodeProgrammee now cfg).2) = true) :
    archiver_conformite_quotidienne st now cfg false panne
      = (ResultatArchive.skippedExiste, { st with lockHeld := false }) := by
  unfold archiver_conformite_quotidienne
  rw [if_neg (by simp [hlock])]
  simp only [Bool.false_eq_true, if_false, hne]
  rw [show ({ st with lockHeld := true } : EtatDB).archives = st.archives from rfl]
  rw [hany]
  simp

/-- The scheduled path when no archive with the computed period exists:
run the body over the sealed period, then release the lock. -/
theorem archiver_sched_new (st : EtatDB) (now : Int) (cfg : ConfigArchive)
    (panne : Option (EtapeArchive × Str)) (hlock : st.lockHeld = false)
    (hne : faultAt panne EtapeArchive.requeteExiste = none)
    (hany : st.archives.any (fun a =>
        a.date_debut_periode == (periodeProgrammee now cfg).1
          && a.date_fin_periode == (periodeProgrammee now cfg).2) = false) :
    archiver_conformite_quotidienne st now cfg false panne
      = ((corpsArchive { st with lockHeld := true } now
            (periodeProgrammee now cfg).1 (periodeProgrammee now cfg).2 panne).1,
         { (corpsArchive { st with lockHeld := true } now
            (periodeProgrammee now cfg).1 (periodeProgrammee now cfg).2 panne).2
            with lockHeld := false }) := by
  unfold archiver_conformite_quotidienne
  rw [if_neg (by simp [hlock])]
  simp only [Bool.false_eq_true, if_false, hne]
  rw [show ({ st with lockHeld := true } : EtatDB).archives = st.archives from rfl]
  rw [hany]
  simp

/-- On the body of the archive `try`, a fault reserved for the idempotency
lookup is never consulted: the body behaves as the fault-free run. -/
theorem corpsArchive_fault_existe (st : EtatDB) (now debut fin : Int) (msg : Str) :
    corpsArchive st now debut fin (some (EtapeArchive.requeteExiste, msg))
      = corpsArchive st now debut fin none := rfl

/-- C7: on the scheduled path the archiver checks for an archive with the
exact computed `(period_start, period_end)` pair: starting from a state
with no such archive, the first call appends exactly one row carrying that
period, and a second call computing the same period reports the
already-exists skip and writes nothing; the forced path performs no such
check and always appends a new row. -/
theorem C7_scheduled_idempotency (st : EtatDB) (now1 now2 : Int)
    (cfg : ConfigArchive) (hlock : st.lockHeld = false)
    (hnew : ∀ a ∈ st.archives,
      ¬(a.date_debut_periode = (periodeProgrammee now1 cfg).1
        ∧ a.date_fin_periode = (periodeProgrammee now1 cfg).2))
    (hsame : periodeProgrammee now2 cfg = periodeProgrammee now1 cfg) :
    (∃ a : Archive,
      (archiver_conformite_quotidienne st now1 cfg false none).2.archives
          = st.archives ++ [a]
        ∧ a.date_debut_periode = (periodeProgrammee now1 cfg).1
        ∧ a.date_fin_periode = (periodeProgrammee now1 cfg).2)
    ∧ (archiver_conformite_quotidienne
          (archiver_conformite_quotidienne st now1 cfg false none).2
          now2 cfg false none).1
        = ResultatArchive.skippedExiste
    ∧ (archiver_conformite_quotidienne
          (archiver_conformite_quotidienne st now1 cfg false none).2
          now2 cfg false none).2.archives
        = (archiver_conformite_quotidienne st now1 cfg false none).2.archives
    ∧ (∀ (st2 : EtatDB) (nowF : Int), st2.lockHeld = false →
        ∃ b : Archive,
          (archiver_conformite_quotidienne st2 nowF cfg true none).2.archives
            = st2.archives ++ [b]) := by
  have hany1 : st.archives.any (fun a =>
      a.date_debut_periode == (periodeProgrammee now1 cfg).1
        && a.date_fin_periode == (periodeProgrammee now1 cfg).2) = false := by
    rw [List.any_eq_false]
    intro a ha
    simp only [Bool.and_eq_true, beq_iff_eq]
    exact hnew a ha
  have h1 := archiver_sched_new st now1 cfg none hlock rfl hany1
  obtain ⟨a, hc, had, haf⟩ := corpsArchive_none { st with lockHeld := true } now1
    (periodeProgrammee now1 cfg).1 (periodeProgrammee now1 cfg).2
  have harch1 : (archiver_conformite_quotidienne st now1 cfg false none).2.archives
      = st.archives ++ [a] := by
    rw [h1, hc]
  have hlock1 :
      (archiver_conformite_quotidienne st now1 cfg false none).2.lockHeld = false := by
    rw [h1]
  have hany2 : (archiver_conformite_quotidienne st now1 cfg false none).2.archives.any
      (fun x => x.date_debut_periode == (periodeProgrammee now2 cfg).1
        && x.date_fin_periode == (periodeProgrammee now2 cfg).2) = true := by
    rw [harch1, hsame, List.any_eq_true]
    refine ⟨a, List.mem_append_right _ (List.mem_singleton.mpr rfl), ?_⟩
    simp [had, haf]
  have h2 := archiver_sched_existing _ now2 cfg none hlock1 rfl hany2
  refine ⟨⟨a, harch1, had, haf⟩, ?_, ?_, ?_⟩
  · rw [h2]
  · rw [h2]
  · intro st2 nowF hl2
    obtain ⟨b, hcb, _, _⟩ := corpsArchive_none { st2 with lockHeld := true } nowF
      (nowF - 86400) nowF
    exact ⟨b, by rw [archiver_forced st2 nowF cfg none hl2, hcb]⟩

/-- C10: with the lock initially free, a storage fault injected anywhere in
the archiver leaves the archive table exactly as it was whenever the error
dictionary is returned (the rollback discards the pending insert), the lock
is released on every path — success, skip and error alike — and on the
forced path every reachable fault point does surface as the error
dictionary with the table unchanged. -/
theorem C10_archive_error_rollback (st : EtatDB) (now : Int) (cfg : ConfigArchive)
    (force : Bool) (e : EtapeArchive) (msg : Str) (hlock : st.lockHeld = false) :
    ((archiver_conformite_quotidienne st now cfg force (some (e, msg))).1
        = ResultatArchive.erreur msg →
      (archiver_conformite_quotidienne st now cfg force (some (e, msg))).2.archives
        = st.archives)
    ∧ (∀ panne : Option (EtapeArchive × Str),
        (archiver_conformite_quotidienne st now cfg force panne).2.lockHeld = false)
    ∧ (force = true → e ≠ EtapeArchive.requeteExiste →
        (archiver_conformite_quotidienne st now cfg force (some (e, msg))).1
          = ResultatArchive.erreur msg
        ∧ (archiver_conformite_quotidienne st now cfg force (some (e, msg))).2.archives
          = st.archives) := by
  have hgen : ∀ panne : Option (EtapeArchive × Str),
      (archiver_conformite_quotidienne st now cfg force panne).2.lockHeld = false := by
    intro panne
    unfold archiver_conformite_quotidienne
    rw [if_neg (by simp [hlock])]
  cases force with
  | true =>
    by_cases he : e = EtapeArchive.requeteExiste
    · subst he
      have h1 := archiver_forced st now cfg
        (some (EtapeArchive.requeteExiste, msg)) hlock
      obtain ⟨b, hcb, _, _⟩ := corpsArchive_none { st with lockHeld := true } now
        (now - 86400) now
      refine ⟨?_, hgen, ?_⟩
      · intro hres
        rw [h1, corpsArchive_fault_existe, hcb] at hres
        exact absurd hres (by simp)
      · intro _ hne
        exact absurd rfl hne
    · have h1 := archiver_forced st now cfg (some (e, msg)) hlock
      have h2 := corpsArchive_fault { st with lockHeld := true } now
        (now - 86400) now e msg he
      refine ⟨?_, hgen, ?_⟩
      · intro _
        rw [h1, h2]
      · intro _ _
        exact ⟨by rw [h1, h2], by rw [h1, h2]⟩
  | false =>
    by_cases he : e = EtapeArchive.requeteExiste
    · subst he
      have h1 := archiver_sched_fault_existe st now cfg msg hlock
      refine ⟨?_, hgen, ?_⟩
      · intro _
        rw [h1]
      · intro hft
        exact absurd hft (by simp)
    · have hne : faultAt (some (e, msg)) EtapeArchive.requeteExiste = none := by
        simp [faultAt, he]
      by_cases hany : st.archives.any (fun a =>
          a.date_debut_periode == (periodeProgrammee now cfg).1
            && a.date_fin_periode == (periodeProgrammee now cfg).2) = true
      · have h1 := archiver_sched_existing st now cfg (some (e, msg)) hlock hne hany
        refine ⟨?_, hgen, ?_⟩
        · intro _
          rw [h1]
        · intro hft
          exact absurd hft (by simp)
      · simp only [Bool.not_eq_true] at hany
        have h1 := archiver_sched_new st now cfg (some (e, msg)) hlock hne hany
        have h2 := corpsArchive_fault { st with lockHeld := true } now
          (periodeProgrammee now cfg).1 (periodeProgrammee now cfg).2 e msg he
        refine ⟨?_, hgen, ?_⟩
        · intro _
          rw [h1, h2]
        · intro hft
          exact absurd hft (by simp)

/-- C7 witness: the idempotency claim at an empty store with a free lock,
both calls at the same instant. -/
theorem C7_scheduled_idempotency_witness :
    (∃ a : Archive,
      (archiver_conformite_quotidienne ⟨[], [], [], false⟩ 100000 ⟨18, 0⟩
          false none).2.archives
          = [] ++ [a]
        ∧ a.date_debut_periode = (periodeProgrammee 100000 ⟨18, 0⟩).1
        ∧ a.date_fin_periode = (periodeProgrammee 100000 ⟨18, 0⟩).2)
    ∧ (archiver_conformite_quotidienne
          (archiver_conformite_quotidienne ⟨[], [], [], false⟩ 100000 ⟨18, 0⟩
            false none).2
          100000 ⟨18, 0⟩ false none).1
        = ResultatArchive.skippedExiste
    ∧ (archiver_conformite_quotidienne
          (archiver_conformite_quotidienne ⟨[], [], [], false⟩ 100000 ⟨18, 0⟩
            false none).2
          100000 ⟨18, 0⟩ false none).2.archives
        = (archiver_conformite_quotidienne ⟨[], [], [], false⟩ 100000 ⟨18, 0⟩
            false none).2.archives
    ∧ (∀ (st2 : EtatDB) (nowF : Int), st2.lockHeld = false →
        ∃ b : Archive,
          (archiver_conformite_quotidienne st2 nowF ⟨18, 0⟩ true none).2.archives
            = st2.archives ++ [b]) :=
  C7_scheduled_idempotency ⟨[], [], [], false⟩ 100000 100000 ⟨18, 0⟩ rfl
    (by simp) rfl

/-- C10 witness: a commit failure on the forced path at an empty store. -/
theorem C10_archive_error_rollback_witness :
    ((archiver_conformite_quotidienne ⟨[], [], [], false⟩ 0 ⟨18, 0⟩ true
          (some (EtapeArchive.commitArchive, strL "db down"))).1
        = ResultatArchive.erreur (strL "db down") →
      (archiver_conformite_quotidienne ⟨[], [], [], false⟩ 0 ⟨18, 0⟩ true
          (some (EtapeArchive.commitArchive, strL "db down"))).2.archives
        = [])
    ∧ (∀ panne : Option (EtapeArchive × Str),
        (archiver_conformite_quotidienne ⟨[], [], [], false⟩ 0 ⟨18, 0⟩ true
            panne).2.lockHeld = false)
    ∧ (true = true → EtapeArchive.commitArchive ≠ EtapeArchive.requeteExiste →
        (archiver_conformite_quotidienne ⟨[], [], [], false⟩ 0 ⟨18, 0⟩ true
            (some (EtapeArchive.commitArchive, strL "db down"))).1
          = ResultatArchive.erreur (strL "db down")
        ∧ (archiver_conformite_quotidienne ⟨[], [], [], false⟩ 0 ⟨18, 0⟩ true
            (some (EtapeArchive.commitArchive, strL "db down"))).2.archives
          = []) :=
  C10_archive_error_rollback ⟨[], [], [], false⟩ 0 ⟨18, 0⟩ true
    EtapeArchive.commitArchive (strL "db down") rfl

end NBCM
